import Mathlib

/-!
# Verification of the eBPF probe instrumenter
Shallow embedding of `pkg/internal/ebpf/instrumenter.go` (package `ebpf`).

Opaque platform objects are modelled as follows:
* compiled eBPF programs are identified by a `Nat` (only identity and presence matter);
* release handles (`io.Closer` values appended to `instrumenter.closables`) are `Nat`
  identifiers, drawn from a fresh-id counter so that duplicate deliveries are observable;
* the platform attachment primitives (`link.Executable.Uprobe`, `link.Kprobe`,
  `link.Kretprobe`, `link.Executable.Uretprobe`, `link.OpenExecutable`, `os.Stat`) are
  oracles collected in an `Env` record: each either succeeds (producing one fresh handle)
  or fails, exactly as the Go error checks dictate;
* `fmt.Sprintf`-built target paths (`/proc/<pid>/exe` and
  `/proc/<pid>/map_files/<start>-<end>`) are the constructors of `InstrPath`, an injective
  rendering of those strings.

Fallible Go functions returning `error` are embedded as functions returning their updated
state together with an `Option String` (`none` = nil error), because the Go methods mutate
`i.closables` even on the error path and that partial mutation is observable.
-/

/-- `goexec.FuncOffsets`: resolved entry offset and return-instruction offsets of one
function (field `Start uint64`, `Returns []uint64`). -/
structure FuncOffsets where
  Start : Nat
  Returns : List Nat
deriving Repr, DecidableEq

/-- `goexec.Offsets`: the offset resolver's table, field `Funcs map[string]FuncOffsets`.
The Go map is embedded as an association list with `lookupFunc` as map indexing. -/
structure Offsets where
  Funcs : List (String × FuncOffsets)
deriving Repr, DecidableEq

/-- Go map lookup `offsets.Funcs[funcName]` (the two-valued `offs, ok :=` form). -/
def lookupFunc (funcs : List (String × FuncOffsets)) (funcName : String) :
    Option FuncOffsets :=
  match funcs with
  | [] => none
  | (n, offs) :: rest => if n = funcName then some offs else lookupFunc rest funcName

/-- `ebpfcommon.FunctionPrograms`: optional entry/return programs plus the `Required`
flag. Programs are identified by `Nat`. -/
structure FunctionPrograms where
  Required : Bool
  Start : Option Nat
  End : Option Nat
deriving Repr, DecidableEq

/-- `ebpfcommon.Probe`: the join of an offset set and a program pair. -/
structure Probe where
  Offsets : FuncOffsets
  Programs : FunctionPrograms
deriving Repr, DecidableEq

/-- A memory mapping from the process map reader (`procfs.ProcMap`): the fields the
instrumenter reads (`StartAddr`, `EndAddr`, `Pathname`). -/
structure ProcMap where
  StartAddr : Nat
  EndAddr : Nat
  Pathname : String
deriving Repr, DecidableEq

/-- The instrumentation target path strings built by `uprobes` via `fmt.Sprintf`:
`/proc/<pid>/exe` or `/proc/<pid>/map_files/<start>-<end>` (injective rendering). -/
inductive InstrPath where
  | exe (pid : Int)
  | mapFiles (pid : Int) (startAddr endAddr : Nat)
deriving Repr, DecidableEq

/-- The mutable state of the `instrumenter` struct that the probe methods touch:
the `closables []io.Closer` list, plus the fresh-handle counter of the embedding. -/
structure IState where
  closables : List Nat
  nextId : Nat
deriving Repr, DecidableEq

/-- A successful platform attachment appends one fresh release handle to
`i.closables` (the Go `i.closables = append(i.closables, up)`). -/
def IState.push (s : IState) : IState :=
  { closables := s.closables ++ [s.nextId], nextId := s.nextId + 1 }

/-- The per-entity state behind the `Tracer` interface calls the instrumenter makes:
`AddCloser` feeds `sink`; `AlreadyInstrumentedLib` / `RecordInstrumentedLib` read and
grow `instrumentedLibs`. Modelled from the spec (the `Tracer` implementations are not
under src/): the closer sink "accepts a batch of release handles for later cleanup" and
the registry is "a set of previously-seen filesystem inode numbers", insertion-only. -/
structure TracerState where
  sink : List Nat
  instrumentedLibs : List Nat
deriving Repr, DecidableEq

/-- `p.AddCloser(cs...)`: the handed batch is appended to the entity's closer sink. -/
def TracerState.addCloser (t : TracerState) (cs : List Nat) : TracerState :=
  { t with sink := t.sink ++ cs }

/-- `p.AlreadyInstrumentedLib(ino)`: registry membership test. -/
def TracerState.alreadyInstrumentedLib (t : TracerState) (ino : Nat) : Bool :=
  t.instrumentedLibs.contains ino

/-- `p.RecordInstrumentedLib(ino)`: insert the inode into the registry. -/
def TracerState.recordInstrumentedLib (t : TracerState) (ino : Nat) : TracerState :=
  { t with instrumentedLibs := t.instrumentedLibs ++ [ino] }

/-- The platform/collaborator oracles consumed by the instrumenter. Each `...Ok` field
decides whether the corresponding attachment primitive succeeds on those arguments;
`statIno` is `os.Stat` followed by the `*syscall.Stat_t` cast (`none` = stat error or
failed cast, `some ino` = the backing inode); `libPath` is `exec.LibPath` (search the
memory map for a mapping matching the library name — external collaborator);
`findLibMaps` is `exec.FindLibMaps` (the process map reader). -/
structure Env where
  goUprobeOk : Nat → Nat → Bool
  kprobeOk : String → Nat → Bool
  kretprobeOk : String → Nat → Bool
  uprobeOk : InstrPath → String → Nat → Bool
  uretprobeOk : InstrPath → String → Nat → Bool
  openExecutableOk : InstrPath → Bool
  statIno : InstrPath → Option Nat
  libPath : String → List ProcMap → Option ProcMap
  findLibMaps : Int → Except String (List ProcMap)

/-- The `for _, ret := range probe.Offsets.Returns` loop of `instrumenter.goprobe`:
attach the return program at every return offset, stopping at the first failure. -/
def attachRets (env : Env) (pr : Nat) (s : IState) : List Nat → IState × Option String
  | [] => (s, none)
  | r :: rest =>
    if env.goUprobeOk pr r then attachRets env pr s.push rest
    else (s, some "setting uretprobe")

/-- `instrumenter.goprobe`: attach the entry program (if set) at the entry offset, then
the return program (if set) at each return offset. The returned state is `i.closables`
as left behind, error path included. -/
def goprobe (env : Env) (probe : Probe) (s : IState) : IState × Option String :=
  let step1 : IState × Option String :=
    match probe.Programs.Start with
    | none => (s, none)
    | some pr =>
      if env.goUprobeOk pr probe.Offsets.Start then (s.push, none)
      else (s, some "setting uprobe")
  match step1 with
  | (s1, some e) => (s1, some e)
  | (s1, none) =>
    match probe.Programs.End with
    | none => (s1, none)
    | some pr => attachRets env pr s1 probe.Offsets.Returns

/-- `instrumenter.goprobes`: for each catalog entry, look the function up in
`i.offsets.Funcs` (skip when absent), run `goprobe`, and on success hand the entire
`i.closables` list to the entity via `AddCloser` before the next function. -/
def goprobes (env : Env) (offsets : Offsets) (cat : List (String × FunctionPrograms))
    (s : IState) (t : TracerState) : IState × TracerState × Option String :=
  match cat with
  | [] => (s, t, none)
  | (funcName, funcPrograms) :: rest =>
    match lookupFunc offsets.Funcs funcName with
    | none => goprobes env offsets rest s t
    | some offs =>
      match goprobe env { Offsets := offs, Programs := funcPrograms } s with
      | (s1, some e) =>
        (s1, t, some ("instrumenting function \"" ++ funcName ++ "\": " ++ e))
      | (s1, none) => goprobes env offsets rest s1 (t.addCloser s1.closables)

/-- `instrumenter.kprobe`: kernel entry probe for `Start`, kernel return probe for
`End`, both keyed by symbol name only. -/
def kprobe (env : Env) (funcName : String) (programs : FunctionPrograms) (s : IState) :
    IState × Option String :=
  let step1 : IState × Option String :=
    match programs.Start with
    | none => (s, none)
    | some pr =>
      if env.kprobeOk funcName pr then (s.push, none)
      else (s, some "setting kprobe")
  match step1 with
  | (s1, some e) => (s1, some e)
  | (s1, none) =>
    match programs.End with
    | none => (s1, none)
    | some pr =>
      if env.kretprobeOk funcName pr then (s1.push, none)
      else (s1, some "setting kretprobe")

/-- `instrumenter.kprobes`: iterate the kernel-probe catalog; any failure is fatal;
after each symbol the whole `i.closables` list is handed to `AddCloser`. -/
def kprobes (env : Env) (cat : List (String × FunctionPrograms))
    (s : IState) (t : TracerState) : IState × TracerState × Option String :=
  match cat with
  | [] => (s, t, none)
  | (kfunc, kps) :: rest =>
    match kprobe env kfunc kps s with
    | (s1, some e) =>
      (s1, t, some ("instrumenting function \"" ++ kfunc ++ "\": " ++ e))
    | (s1, none) => kprobes env rest s1 (t.addCloser s1.closables)

/-- `instrumenter.uprobe`: symbol-addressed user probe against an opened image:
entry program via `Uprobe`, return program via `Uretprobe`. -/
def uprobe (env : Env) (funcName : String) (exe : InstrPath)
    (probe : FunctionPrograms) (s : IState) : IState × Option String :=
  let step1 : IState × Option String :=
    match probe.Start with
    | none => (s, none)
    | some pr =>
      if env.uprobeOk exe funcName pr then (s.push, none)
      else (s, some "setting uprobe")
  match step1 with
  | (s1, some e) => (s1, some e)
  | (s1, none) =>
    match probe.End with
    | none => (s1, none)
    | some pr =>
      if env.uretprobeOk exe funcName pr then (s1.push, none)
      else (s1, some "setting uretprobe")

/-- The `for funcName, funcPrograms := range pMap` loop of `instrumenter.uprobes`:
a failure of a `Required` pair aborts; an optional failure is logged and skipped;
in either surviving case the whole `i.closables` list is handed to `AddCloser`. -/
def processFuncs (env : Env) (exe : InstrPath)
    (funcs : List (String × FunctionPrograms))
    (s : IState) (t : TracerState) : IState × TracerState × Option String :=
  match funcs with
  | [] => (s, t, none)
  | (funcName, funcPrograms) :: rest =>
    match uprobe env funcName exe funcPrograms s with
    | (s1, some e) =>
      if funcPrograms.Required then
        (s1, t, some ("instrumenting function \"" ++ funcName ++ "\": " ++ e))
      else processFuncs env exe rest s1 (t.addCloser s1.closables)
    | (s1, none) => processFuncs env exe rest s1 (t.addCloser s1.closables)

/-- The target-selection head of the per-library iteration of `instrumenter.uprobes`:
`none` means the `continue` branch (inode already instrumented); otherwise the chosen
instrumentation path together with the `ino` variable (`0` when undetermined). -/
def libTarget (env : Env) (pid : Int) (maps : List ProcMap) (t : TracerState)
    (lib : String) : Option (InstrPath × Nat) :=
  match env.libPath lib maps with
  | some libMap =>
    let instrPath := InstrPath.mapFiles pid libMap.StartAddr libMap.EndAddr
    match env.statIno instrPath with
    | some ino =>
      if t.alreadyInstrumentedLib ino then none
      else some (instrPath, ino)
    | none => some (instrPath, 0)
  | none => some (InstrPath.exe pid, 0)

/-- The `for lib, pMap := range p.UProbes()` loop of `instrumenter.uprobes`: pick the
target (skipping already-instrumented inodes), open it (`link.OpenExecutable`, fatal on
failure), attach every function, and finally record the inode when one was determined. -/
def uprobesLibs (env : Env) (pid : Int) (maps : List ProcMap)
    (cat : List (String × List (String × FunctionPrograms)))
    (s : IState) (t : TracerState) : IState × TracerState × Option String :=
  match cat with
  | [] => (s, t, none)
  | (lib, pMap) :: rest =>
    match libTarget env pid maps t lib with
    | none => uprobesLibs env pid maps rest s t
    | some (instrPath, ino) =>
      if env.openExecutableOk instrPath then
        match processFuncs env instrPath pMap s t with
        | (s1, t1, some e) => (s1, t1, some e)
        | (s1, t1, none) =>
          let t2 := if ino ≠ 0 then t1.recordInstrumentedLib ino else t1
          uprobesLibs env pid maps rest s1 t2
      else (s, t, some "open executable")

/-- `processMaps`: delegates to `exec.FindLibMaps`. -/
def processMaps (env : Env) (pid : Int) : Except String (List ProcMap) :=
  env.findLibMaps pid

/-- `instrumenter.uprobes`: read the process map (propagating a read error), treat an
empty map as nothing-to-instrument, else run the per-library loop. -/
def uprobes (env : Env) (pid : Int)
    (cat : List (String × List (String × FunctionPrograms)))
    (s : IState) (t : TracerState) : IState × TracerState × Option String :=
  match processMaps env pid with
  | Except.error e => (s, t, some e)
  | Except.ok maps =>
    if maps.length = 0 then (s, t, none)
    else uprobesLibs env pid maps cat s t

/-- Modelled from the spec: `exec.FindLibMaps` (package `pkg/internal/exec`, not under
src/) is the process map reader, whose contract is: "given a process identifier, returns
an ordered sequence of memory mappings, each with a path, address range, and (when
queryable) backing inode; returns an empty sequence (not an error) if the process cannot
be inspected". -/
def findLibMapsSpec (inspectable : Bool) (maps : List ProcMap) :
    Except String (List ProcMap) :=
  if inspectable then Except.ok maps else Except.ok []

/-- `htons`: 16-bit host-to-network byte-order conversion. The host's byte order
(`isLittleEndian`, which inspects memory layout) is the `littleEndian` parameter. On a
little-endian host the two bytes are swapped (`binary.LittleEndian.PutUint16` then
`binary.BigEndian.Uint16`); on a big-endian host the value is returned unchanged. -/
def htons (littleEndian : Bool) (a : Nat) : Nat :=
  if littleEndian then (a % 256) * 256 + a / 256 else a

/-- A concrete oracle environment in which every platform primitive succeeds and no
library mapping or inode is found. -/
def envAllOk : Env where
  goUprobeOk := fun _ _ => true
  kprobeOk := fun _ _ => true
  kretprobeOk := fun _ _ => true
  uprobeOk := fun _ _ _ => true
  uretprobeOk := fun _ _ _ => true
  openExecutableOk := fun _ => true
  statIno := fun _ => none
  libPath := fun _ _ => none
  findLibMaps := fun _ => Except.ok []

/-- `s` evolves to `s'` by appending `k` freshly drawn consecutive handle ids to the
closables list; the closables list is never cleared or reordered. -/
def Extends (s s' : IState) : Prop :=
  ∃ k, s'.closables = s.closables ++ List.range' s.nextId k ∧ s'.nextId = s.nextId + k

theorem Extends.refl (s : IState) : Extends s s :=
  ⟨0, by simp [List.range'], by simp⟩

theorem Extends.push (s : IState) : Extends s s.push :=
  ⟨1, by simp [IState.push, List.range'], rfl⟩

theorem Extends.trans {s1 s2 s3 : IState} (h1 : Extends s1 s2) (h2 : Extends s2 s3) :
    Extends s1 s3 := by
  obtain ⟨k1, hc1, hn1⟩ := h1
  obtain ⟨k2, hc2, hn2⟩ := h2
  refine ⟨k1 + k2, ?_, by omega⟩
  rw [hc2, hc1, hn1, List.append_assoc]
  have := List.range'_append s1.nextId k1 k2 1
  rw [one_mul] at this
  rw [this, Nat.add_comm k2 k1]

theorem attachRets_extends (env : Env) (pr : Nat) :
    ∀ (rets : List Nat) (s : IState), Extends s (attachRets env pr s rets).1 := by
  intro rets
  induction rets with
  | nil => intro s; exact Extends.refl s
  | cons r rest ih =>
    intro s
    by_cases h : env.goUprobeOk pr r = true
    · simpa [attachRets, h] using (Extends.push s).trans (ih s.push)
    · simp only [attachRets, h, if_false]
      exact Extends.refl s

theorem goprobe_extends (env : Env) (probe : Probe) (s : IState) :
    Extends s (goprobe env probe s).1 := by
  cases hs : probe.Programs.Start with
  | none =>
    cases he : probe.Programs.End with
    | none => simp only [goprobe, hs, he]; exact Extends.refl s
    | some pr =>
      simp only [goprobe, hs, he]
      exact attachRets_extends env pr probe.Offsets.Returns s
  | some pr =>
    by_cases hok : env.goUprobeOk pr probe.Offsets.Start = true
    · cases he : probe.Programs.End with
      | none => simp only [goprobe, hs, he, hok, if_true]; exact Extends.push s
      | some pr2 =>
        simp only [goprobe, hs, he, hok, if_true]
        exact (Extends.push s).trans
          (attachRets_extends env pr2 probe.Offsets.Returns s.push)
    · simp only [goprobe, hs, eq_false_of_ne_true hok, Bool.false_eq_true,
        if_false]
      exact Extends.refl s

theorem attachRets_ok_length (env : Env) (pr : Nat) :
    ∀ (rets : List Nat) (s s' : IState), attachRets env pr s rets = (s', none) →
    s'.closables.length = s.closables.length + rets.length := by
  intro rets
  induction rets with
  | nil =>
    intro s s' h
    simp only [attachRets, Prod.mk.injEq] at h
    simp [h.1]
  | cons r rest ih =>
    intro s s' h
    by_cases hok : env.goUprobeOk pr r = true
    · simp only [attachRets, hok, if_true] at h
      have := ih s.push s' h
      simp only [IState.push, List.length_append, List.length_cons,
        List.length_nil] at this
      simp only [this, List.length_cons]
      omega
    · simp [attachRets, hok] at h

theorem goprobe_ok_counts (env : Env) (probe : Probe) (s s' : IState)
    (h : goprobe env probe s = (s', none)) :
    s'.closables.length = s.closables.length +
      ((if probe.Programs.Start.isSome then 1 else 0) +
       (if probe.Programs.End.isSome then probe.Offsets.Returns.length else 0)) := by
  cases hs : probe.Programs.Start with
  | none =>
    cases he : probe.Programs.End with
    | none =>
      simp only [goprobe, hs, he, Prod.mk.injEq] at h
      simp [hs, he, h.1]
    | some pr =>
      simp only [goprobe, hs, he] at h
      have := attachRets_ok_length env pr probe.Offsets.Returns s s' h
      simp [hs, he, this]
  | some pr =>
    by_cases hok : env.goUprobeOk pr probe.Offsets.Start = true
    · cases he : probe.Programs.End with
      | none =>
        simp only [goprobe, hs, he, hok, if_true, Prod.mk.injEq] at h
        simp [hs, he, ← h.1, IState.push]
      | some pr2 =>
        simp only [goprobe, hs, he, hok, if_true] at h
        have := attachRets_ok_length env pr2 probe.Offsets.Returns s.push s' h
        simp only [IState.push, List.length_append, List.length_cons,
          List.length_nil] at this
        simp only [hs, he, Option.isSome_some, if_true, this]
        omega
    · simp [goprobe, hs, eq_false_of_ne_true hok] at h

/-- C1: for every symbolic function name present in the offset resolver whose offset set
has N return offsets, a successful main-binary probe attachment (`goprobes`) creates
exactly one release handle if only the entry program is set, exactly N if only the
return program is set, and 1+N if both are set — one handle per attached point, the
return program being attached once per return offset. -/
theorem goprobes_handle_count (env : Env) (offsets : Offsets) (funcName : String)
    (progs : FunctionPrograms) (offs : FuncOffsets) (s : IState) (t : TracerState)
    (s' : IState) (t' : TracerState)
    (hfound : lookupFunc offsets.Funcs funcName = some offs)
    (hrun : goprobes env offsets [(funcName, progs)] s t = (s', t', none)) :
    s'.closables.length = s.closables.length +
      ((if progs.Start.isSome then 1 else 0) +
       (if progs.End.isSome then offs.Returns.length else 0)) := by
  simp only [goprobes, hfound] at hrun
  rcases hgp : goprobe env { Offsets := offs, Programs := progs } s with ⟨s1, e⟩
  cases e with
  | none =>
    simp only [hgp, goprobes, Prod.mk.injEq] at hrun
    have := goprobe_ok_counts env { Offsets := offs, Programs := progs } s s1 hgp
    simpa [hrun.1] using this
  | some err => simp [hgp] at hrun

theorem goprobes_handle_count_witness :
    (IState.closables ⟨[0, 1, 2], 3⟩).length =
      (IState.closables ⟨[], 0⟩).length +
      ((if (some 10 : Option Nat).isSome then 1 else 0) +
       (if (some 20 : Option Nat).isSome then ([1, 2] : List Nat).length else 0)) :=
  goprobes_handle_count envAllOk ⟨[("f", ⟨0, [1, 2]⟩)]⟩ "f" ⟨false, some 10, some 20⟩
    ⟨0, [1, 2]⟩ ⟨[], 0⟩ ⟨[], []⟩ ⟨[0, 1, 2], 3⟩ ⟨[0, 1, 2], []⟩ (by decide) (by decide)

/-- C3: for every process whose memory map cannot be read (per the process-map reader's
contract this surfaces as an empty sequence, not an error) or is read as an empty
sequence, `uprobes` returns success with no attachment performed, no handle created and
no error propagated. -/
theorem uprobes_empty_map_success (env : Env) (pid : Int)
    (cat : List (String × List (String × FunctionPrograms)))
    (s : IState) (t : TracerState) (inspectable : Bool) (maps : List ProcMap)
    (hread : env.findLibMaps pid = findLibMapsSpec inspectable maps)
    (h : inspectable = false ∨ maps = []) :
    uprobes env pid cat s t = (s, t, none) := by
  rcases h with h | h
  · subst h
    simp [uprobes, processMaps, hread, findLibMapsSpec]
  · subst h
    cases inspectable <;> simp [uprobes, processMaps, hread, findLibMapsSpec]

theorem uprobes_empty_map_success_witness :
    uprobes envAllOk 7 [("libssl.so", [("SSL_read", ⟨true, some 1, none⟩)])]
      ⟨[], 0⟩ ⟨[], []⟩ = (⟨[], 0⟩, ⟨[], []⟩, none) :=
  uprobes_empty_map_success envAllOk 7
    [("libssl.so", [("SSL_read", ⟨true, some 1, none⟩)])] ⟨[], 0⟩ ⟨[], []⟩
    false [⟨0, 1, "/lib/libssl.so"⟩] rfl (Or.inl rfl)

/-- C8: in every attachment path — main-binary probe (`goprobe`), kernel probe
(`kprobe`), library probe (`uprobe`) — a function program pair with neither an entry
program nor a return program set is never attached: the state is returned unchanged
(no release handle) and no error arises. -/
theorem empty_pair_never_attached (env : Env) (progs : FunctionPrograms)
    (hs : progs.Start = none) (he : progs.End = none) :
    (∀ (offs : FuncOffsets) (s : IState), goprobe env ⟨offs, progs⟩ s = (s, none)) ∧
    (∀ (fn : String) (s : IState), kprobe env fn progs s = (s, none)) ∧
    (∀ (fn : String) (exe : InstrPath) (s : IState),
      uprobe env fn exe progs s = (s, none)) := by
  refine ⟨fun offs s => ?_, fun fn s => ?_, fun fn exe s => ?_⟩
  · simp [goprobe, hs, he]
  · simp [kprobe, hs, he]
  · simp [uprobe, hs, he]

theorem empty_pair_never_attached_witness :
    goprobe envAllOk ⟨⟨0, [4]⟩, ⟨true, none, none⟩⟩ ⟨[9], 10⟩ = (⟨[9], 10⟩, none) :=
  (empty_pair_never_attached envAllOk ⟨true, none, none⟩ rfl rfl).1 ⟨0, [4]⟩ ⟨[9], 10⟩

/-- C9: the 16-bit byte-order conversion `htons` is an involution on 16-bit values on
either kind of host; on a little-endian host it maps 0x0001 to 0x0100 and 0x0100 to
0x0001, and on a big-endian host it is the identity. -/
theorem htons_round_trip :
    (∀ (le : Bool) (a : Nat), a < 65536 → htons le (htons le a) = a) ∧
    htons true 1 = 256 ∧ htons true 256 = 1 ∧
    (∀ a : Nat, a < 65536 → htons false a = a) := by
  refine ⟨?_, by decide, by decide, fun a _ => by simp [htons]⟩
  intro le a h
  cases le with
  | false => simp [htons]
  | true =>
    simp only [htons, if_true]
    omega

theorem htons_round_trip_witness :
    htons true (htons true 258) = 258 ∧ htons false 7 = 7 :=
  ⟨htons_round_trip.1 true 258 (by decide), htons_round_trip.2.2.2 7 (by decide)⟩

/-- Oracle environment for the partial-attachment scenario: a main-binary attachment at
offset 0 succeeds, any other offset fails. -/
def envEntryOnly : Env :=
  { envAllOk with goUprobeOk := fun _ addr => addr == 0 }

/-- C2 counterexample: catalog with the single function `f` (entry offset 0, one return
offset 1, both programs set); the entry attachment succeeds and creates release handle 0,
the return attachment fails. At the moment `goprobes` returns the error, handle 0 —
created by a successful attachment — sits in the instrumenter's closables list while the
traced entity's closer sink is still empty, so the claim's "every release handle created
by a successful attachment has already been handed to the closer sink" is false. -/
theorem goprobes_partial_leak_cex :
    (goprobes envEntryOnly ⟨[("f", ⟨0, [1]⟩)]⟩ [("f", ⟨true, some 10, some 20⟩)]
        ⟨[], 0⟩ ⟨[], []⟩).2.2.isSome = true ∧
    (goprobes envEntryOnly ⟨[("f", ⟨0, [1]⟩)]⟩ [("f", ⟨true, some 10, some 20⟩)]
        ⟨[], 0⟩ ⟨[], []⟩).1.closables = [0] ∧
    (goprobes envEntryOnly ⟨[("f", ⟨0, [1]⟩)]⟩ [("f", ⟨true, some 10, some 20⟩)]
        ⟨[], 0⟩ ⟨[], []⟩).2.1.sink = [] := by
  decide

/-- C2 (amended): when `goprobes` returns an error, there is a watermark `nFail` (the
fresh-handle counter at entry to the failing function's attachment) such that every
handle created before it — in particular every handle of the earlier, fully-attached
functions — is already in the traced entity's closer sink, while the handles created at
earlier points of the failing function itself (those at or above the watermark) are
retained only in the instrumenter's closables list and are NOT in the sink. The
well-formedness hypotheses say that handles present at entry were already delivered and
that all recorded handles were drawn from the fresh-id counter. -/
theorem goprobes_no_leak (env : Env) (offsets : Offsets) :
    ∀ (cat : List (String × FunctionPrograms)) (s : IState) (t : TracerState)
      (s' : IState) (t' : TracerState) (e : String),
    (∀ h, h ∈ s.closables → h ∈ t.sink) →
    (∀ h, h ∈ s.closables → h < s.nextId) →
    (∀ h, h ∈ t.sink → h < s.nextId) →
    goprobes env offsets cat s t = (s', t', some e) →
    ∃ nFail, s.nextId ≤ nFail ∧ nFail ≤ s'.nextId ∧
      (∀ h, h ∈ s'.closables → h < nFail → h ∈ t'.sink) ∧
      (∀ h, nFail ≤ h → h < s'.nextId → h ∈ s'.closables ∧ h ∉ t'.sink) := by
  intro cat
  induction cat with
  | nil =>
    intro s t s' t' e _ _ _ hrun
    simp [goprobes] at hrun
  | cons entry rest ih =>
    rcases entry with ⟨fn, progs⟩
    intro s t s' t' e hsub hwfC hwfS hrun
    cases hlk : lookupFunc offsets.Funcs fn with
    | none =>
      simp only [goprobes, hlk] at hrun
      exact ih s t s' t' e hsub hwfC hwfS hrun
    | some offs =>
      rcases hgp : goprobe env { Offsets := offs, Programs := progs } s with ⟨s1, e1⟩
      have hext : Extends s s1 := by
        have := goprobe_extends env { Offsets := offs, Programs := progs } s
        rwa [hgp] at this
      obtain ⟨k, hc, hn⟩ := hext
      cases e1 with
      | some err =>
        simp only [goprobes, hlk, hgp, Prod.mk.injEq] at hrun
        obtain ⟨rfl, rfl, -⟩ := hrun
        refine ⟨s.nextId, le_rfl, by omega, ?_, ?_⟩
        · intro h hmem hlt
          rw [hc] at hmem
          rcases List.mem_append.mp hmem with hmem | hmem
          · exact hsub h hmem
          · have := List.mem_range'_1.mp hmem
            omega
        · intro h h1 h2
          refine ⟨?_, fun hsink => absurd (hwfS h hsink) (by omega)⟩
          rw [hc]
          exact List.mem_append.mpr (Or.inr (List.mem_range'_1.mpr ⟨h1, by omega⟩))
      | none =>
        simp only [goprobes, hlk, hgp] at hrun
        have hwfC1 : ∀ h, h ∈ s1.closables → h < s1.nextId := by
          intro h hm
          rw [hc] at hm
          rcases List.mem_append.mp hm with hm | hm
          · have := hwfC h hm; omega
          · have := List.mem_range'_1.mp hm; omega
        have hrec := ih s1 (t.addCloser s1.closables) s' t' e
          (fun h hm => by
            simp only [TracerState.addCloser]
            exact List.mem_append.mpr (Or.inr hm))
          hwfC1
          (fun h hm => by
            simp only [TracerState.addCloser] at hm
            rcases List.mem_append.mp hm with hm | hm
            · have := hwfS h hm; omega
            · exact hwfC1 h hm)
          hrun
        obtain ⟨nFail, hn1, hn2, hn3, hn4⟩ := hrec
        exact ⟨nFail, by omega, hn2, hn3, hn4⟩

theorem goprobes_no_leak_witness :
    ∃ nFail, (IState.nextId ⟨[], 0⟩) ≤ nFail ∧ nFail ≤ (IState.nextId ⟨[0], 1⟩) ∧
      (∀ h, h ∈ IState.closables ⟨[0], 1⟩ → h < nFail →
        h ∈ TracerState.sink ⟨[0], []⟩) ∧
      (∀ h, nFail ≤ h → h < IState.nextId ⟨[0], 1⟩ →
        h ∈ IState.closables ⟨[0], 1⟩ ∧ h ∉ TracerState.sink ⟨[0], []⟩) :=
  goprobes_no_leak envEntryOnly ⟨[("f1", ⟨0, []⟩), ("f2", ⟨5, []⟩)]⟩
    [("f1", ⟨false, some 1, none⟩), ("f2", ⟨false, some 2, none⟩)]
    ⟨[], 0⟩ ⟨[], []⟩ ⟨[0], 1⟩ ⟨[0], []⟩ "instrumenting function \"f2\": setting uprobe"
    (by simp) (by simp) (by simp) (by decide)

/-- Whether `instrumenter.uprobe` fails for this function program pair against this
image. The outcome depends only on the oracles, not on the instrumenter state: the
entry attachment fails, or it succeeds (or is absent) and the return attachment
fails. -/
def uprobeFails (env : Env) (exe : InstrPath) (fn : String)
    (progs : FunctionPrograms) : Bool :=
  match progs.Start with
  | some pr =>
    if env.uprobeOk exe fn pr then
      match progs.End with
      | some pr2 => !(env.uretprobeOk exe fn pr2)
      | none => false
    else true
  | none =>
    match progs.End with
    | some pr2 => !(env.uretprobeOk exe fn pr2)
    | none => false

theorem uprobe_fails_iff (env : Env) (exe : InstrPath) (fn : String)
    (progs : FunctionPrograms) (s : IState) :
    (uprobe env fn exe progs s).2.isSome = uprobeFails env exe fn progs := by
  cases hs : progs.Start with
  | none =>
    cases he : progs.End with
    | none => simp [uprobe, uprobeFails, hs, he]
    | some pr2 =>
      by_cases hret : env.uretprobeOk exe fn pr2 = true <;>
        simp [uprobe, uprobeFails, hs, he, hret]
  | some pr =>
    by_cases hent : env.uprobeOk exe fn pr = true
    · cases he : progs.End with
      | none => simp [uprobe, uprobeFails, hs, he, hent]
      | some pr2 =>
        by_cases hret : env.uretprobeOk exe fn pr2 = true <;>
          simp [uprobe, uprobeFails, hs, he, hent, hret]
    · simp [uprobe, uprobeFails, hs, eq_false_of_ne_true hent]

/-- C4: in the per-library function loop, the call returns an error exactly when some
pair marked required is processed and its attachment fails; an optional pair's failure
is swallowed and iteration continues (so it never makes the call fail), and the closer
sink only ever grows — handles already appended before a later required failure are not
rolled back. -/
theorem processFuncs_required_policy (env : Env) (exe : InstrPath) :
    ∀ (funcs : List (String × FunctionPrograms)) (s : IState) (t : TracerState),
    ((processFuncs env exe funcs s t).2.2.isSome = true ↔
      ∃ p ∈ funcs, p.2.Required = true ∧ uprobeFails env exe p.1 p.2 = true) ∧
    (∃ u, (processFuncs env exe funcs s t).2.1.sink = t.sink ++ u) := by
  intro funcs
  induction funcs with
  | nil =>
    intro s t
    refine ⟨by simp [processFuncs], ⟨[], by simp [processFuncs]⟩⟩
  | cons entry rest ih =>
    rcases entry with ⟨fn, progs⟩
    intro s t
    rcases hup : uprobe env fn exe progs s with ⟨s1, e1⟩
    have hfail : uprobeFails env exe fn progs = (e1.isSome : Bool) := by
      rw [← uprobe_fails_iff env exe fn progs s, hup]
    cases e1 with
    | some err =>
      by_cases hreq : progs.Required = true
      · constructor
        · simp only [processFuncs, hup, hreq, if_true]
          simp only [Option.isSome_some, true_iff]
          exact ⟨(fn, progs), List.mem_cons_self .., hreq, by simp [hfail]⟩
        · simp only [processFuncs, hup, hreq, if_true]
          exact ⟨[], by simp⟩
      · have hreq' : progs.Required = false := by
          cases h : progs.Required
          · rfl
          · exact absurd h hreq
        obtain ⟨hiff, hu, hsink⟩ := ih s1 (t.addCloser s1.closables)
        constructor
        · simp only [processFuncs, hup, hreq', if_false, Bool.false_eq_true]
          rw [hiff]
          constructor
          · rintro ⟨p, hp, hp1, hp2⟩
            exact ⟨p, List.mem_cons_of_mem _ hp, hp1, hp2⟩
          · rintro ⟨p, hp, hp1, hp2⟩
            rcases List.mem_cons.mp hp with rfl | hp
            · exact absurd hp1 (by simp [hreq'])
            · exact ⟨p, hp, hp1, hp2⟩
        · simp only [processFuncs, hup, hreq', if_false, Bool.false_eq_true]
          rw [hsink]
          exact ⟨s1.closables ++ hu, by simp [TracerState.addCloser]⟩
    | none =>
      obtain ⟨hiff, hu, hsink⟩ := ih s1 (t.addCloser s1.closables)
      constructor
      · simp only [processFuncs, hup]
        rw [hiff]
        constructor
        · rintro ⟨p, hp, hp1, hp2⟩
          exact ⟨p, List.mem_cons_of_mem _ hp, hp1, hp2⟩
        · rintro ⟨p, hp, hp1, hp2⟩
          rcases List.mem_cons.mp hp with rfl | hp
          · rw [hp2] at hfail
            simp at hfail
          · exact ⟨p, hp, hp1, hp2⟩
      · simp only [processFuncs, hup]
        rw [hsink]
        exact ⟨s1.closables ++ hu, by simp [TracerState.addCloser]⟩

theorem processFuncs_registry (env : Env) (exe : InstrPath) :
    ∀ (funcs : List (String × FunctionPrograms)) (s : IState) (t : TracerState),
    (processFuncs env exe funcs s t).2.1.instrumentedLibs = t.instrumentedLibs := by
  intro funcs
  induction funcs with
  | nil => intro s t; simp [processFuncs]
  | cons entry rest ih =>
    rcases entry with ⟨fn, progs⟩
    intro s t
    rcases hup : uprobe env fn exe progs s with ⟨s1, e1⟩
    cases e1 with
    | some err =>
      by_cases hreq : progs.Required = true
      · simp [processFuncs, hup, hreq]
      · have hreq' : progs.Required = false := by simpa using hreq
        simp only [processFuncs, hup, hreq', if_false, Bool.false_eq_true]
        simpa [TracerState.addCloser] using ih s1 (t.addCloser s1.closables)
    | none =>
      simp only [processFuncs, hup]
      simpa [TracerState.addCloser] using ih s1 (t.addCloser s1.closables)

/-- Exhaustive description of one library's pass through `uprobes`: either the
traced entity's registry is left unchanged, or the run went through the full
record path — mapping found, inode determined and nonzero, not yet instrumented,
image opened, every function attempted without a required failure — and exactly that
inode was appended to the registry. -/
theorem uprobesLibs_single_registry (env : Env) (pid : Int) (maps : List ProcMap)
    (lib : String) (pMap : List (String × FunctionPrograms))
    (s : IState) (t : TracerState) :
    (uprobesLibs env pid maps [(lib, pMap)] s t).2.1.instrumentedLibs
      = t.instrumentedLibs ∨
    (∃ m ino s1 t1, env.libPath lib maps = some m ∧
      env.statIno (InstrPath.mapFiles pid m.StartAddr m.EndAddr) = some ino ∧
      ino ≠ 0 ∧ t.alreadyInstrumentedLib ino = false ∧
      env.openExecutableOk (InstrPath.mapFiles pid m.StartAddr m.EndAddr) = true ∧
      processFuncs env (InstrPath.mapFiles pid m.StartAddr m.EndAddr) pMap s t
        = (s1, t1, none) ∧
      uprobesLibs env pid maps [(lib, pMap)] s t
        = (s1, t1.recordInstrumentedLib ino, none) ∧
      (uprobesLibs env pid maps [(lib, pMap)] s t).2.1.instrumentedLibs
        = t.instrumentedLibs ++ [ino]) := by
  cases hlp : env.libPath lib maps with
  | none =>
    left
    simp only [uprobesLibs, libTarget, hlp]
    by_cases hopen : env.openExecutableOk (InstrPath.exe pid) = true
    · simp only [hopen, if_true]
      rcases hpf : processFuncs env (InstrPath.exe pid) pMap s t with ⟨s1, t1, e1⟩
      have hreg := processFuncs_registry env (InstrPath.exe pid) pMap s t
      rw [hpf] at hreg
      cases e1 with
      | some err => simpa using hreg
      | none => simpa [uprobesLibs] using hreg
    · simp [eq_false_of_ne_true hopen]
  | some m =>
    cases hsi : env.statIno (InstrPath.mapFiles pid m.StartAddr m.EndAddr) with
    | none =>
      left
      simp only [uprobesLibs, libTarget, hlp, hsi]
      by_cases hopen :
          env.openExecutableOk (InstrPath.mapFiles pid m.StartAddr m.EndAddr) = true
      · simp only [hopen, if_true]
        rcases hpf : processFuncs env (InstrPath.mapFiles pid m.StartAddr m.EndAddr)
            pMap s t with ⟨s1, t1, e1⟩
        have hreg :=
          processFuncs_registry env (InstrPath.mapFiles pid m.StartAddr m.EndAddr)
            pMap s t
        rw [hpf] at hreg
        cases e1 with
        | some err => simpa using hreg
        | none => simpa [uprobesLibs] using hreg
      · simp [eq_false_of_ne_true hopen]
    | some ino =>
      by_cases halready : t.alreadyInstrumentedLib ino = true
      · left
        simp [uprobesLibs, libTarget, hlp, hsi, halready]
      · have halready' : t.alreadyInstrumentedLib ino = false := by simpa using halready
        by_cases hopen :
            env.openExecutableOk (InstrPath.mapFiles pid m.StartAddr m.EndAddr) = true
        · rcases hpf : processFuncs env (InstrPath.mapFiles pid m.StartAddr m.EndAddr)
              pMap s t with ⟨s1, t1, e1⟩
          have hreg :=
            processFuncs_registry env (InstrPath.mapFiles pid m.StartAddr m.EndAddr)
              pMap s t
          rw [hpf] at hreg
          cases e1 with
          | some err =>
            left
            simp only [uprobesLibs, libTarget, hlp, hsi, halready', if_false,
              Bool.false_eq_true, hopen, if_true, hpf]
            exact hreg
          | none =>
            by_cases hino : ino = 0
            · left
              subst hino
              simp only [uprobesLibs, libTarget, hlp, hsi, halready', if_false,
                Bool.false_eq_true, hopen, if_true, hpf, ne_eq, not_true_eq_false]
              simpa [uprobesLibs] using hreg
            · right
              have hreg' : t1.instrumentedLibs = t.instrumentedLibs := by
                simpa using hreg
              have hres : uprobesLibs env pid maps [(lib, pMap)] s t
                  = (s1, t1.recordInstrumentedLib ino, none) := by
                simp only [uprobesLibs, libTarget, hlp, hsi, halready', if_false,
                  Bool.false_eq_true, hopen, if_true, hpf, ne_eq, hino,
                  not_false_eq_true, if_true]
              refine ⟨m, ino, s1, t1, rfl, hsi, hino, halready', hopen, hpf, hres, ?_⟩
              rw [hres]
              simp [TracerState.recordInstrumentedLib, hreg']
        · left
          simp [uprobesLibs, libTarget, hlp, hsi, halready', eq_false_of_ne_true hopen]

/-- C5: an inode is recorded in the instrumented-library registry only after all of the
library's functions have been attempted (the per-function loop ran to completion over
the whole catalog without a required failure) and only if the inode was successfully
determined earlier in the call; a library whose inode could not be determined — stat
failure, or fallback to the main executable — never touches the registry and is
therefore re-scanned on every call. -/
theorem uprobes_inode_recorded_only_after_all (env : Env) (pid : Int)
    (maps : List ProcMap) (lib : String) (pMap : List (String × FunctionPrograms))
    (s : IState) (t : TracerState) :
    (env.libPath lib maps = none →
      (uprobesLibs env pid maps [(lib, pMap)] s t).2.1.instrumentedLibs
        = t.instrumentedLibs) ∧
    (∀ m, env.libPath lib maps = some m →
      env.statIno (InstrPath.mapFiles pid m.StartAddr m.EndAddr) = none →
      (uprobesLibs env pid maps [(lib, pMap)] s t).2.1.instrumentedLibs
        = t.instrumentedLibs) ∧
    ((uprobesLibs env pid maps [(lib, pMap)] s t).2.1.instrumentedLibs
        ≠ t.instrumentedLibs →
      ∃ m ino s1 t1, env.libPath lib maps = some m ∧
        env.statIno (InstrPath.mapFiles pid m.StartAddr m.EndAddr) = some ino ∧
        ino ≠ 0 ∧ t.alreadyInstrumentedLib ino = false ∧
        processFuncs env (InstrPath.mapFiles pid m.StartAddr m.EndAddr) pMap s t
          = (s1, t1, none) ∧
        (uprobesLibs env pid maps [(lib, pMap)] s t).2.1.instrumentedLibs
          = t.instrumentedLibs ++ [ino]) := by
  rcases uprobesLibs_single_registry env pid maps lib pMap s t with hunch | hrec
  · exact ⟨fun _ => hunch, fun _ _ _ => hunch, fun hne => absurd hunch hne⟩
  · obtain ⟨m, ino, s1, t1, h1, h2, h3, h4, h5, h6, h7, h8⟩ := hrec
    refine ⟨?_, ?_, ?_⟩
    · intro h0
      rw [h0] at h1
      cases h1
    · intro m' hm' hsi'
      rw [h1] at hm'
      injection hm' with hm''
      subst hm''
      rw [hsi'] at h2
      cases h2
    · intro _
      exact ⟨m, ino, s1, t1, h1, h2, h3, h4, h6, h8⟩

theorem uprobes_inode_recorded_only_after_all_witness :
    (uprobesLibs envAllOk 3 [⟨0, 1, "/x"⟩]
        [("libssl.so", [("SSL_read", ⟨true, some 1, none⟩)])]
        ⟨[], 0⟩ ⟨[], []⟩).2.1.instrumentedLibs
      = TracerState.instrumentedLibs ⟨[], []⟩ :=
  (uprobes_inode_recorded_only_after_all envAllOk 3 [⟨0, 1, "/x"⟩] "libssl.so"
    [("SSL_read", ⟨true, some 1, none⟩)] ⟨[], 0⟩ ⟨[], []⟩).1 rfl

/-- C7: when a requested library has no matching mapping in the process map, `uprobes`
falls back to the main executable image `/proc/<pid>/exe` as the attachment target: the
whole pass coincides with running the per-function loop over the same symbol set
against the executable image, and no inode is recorded, so the fallback is re-attempted
on every call. -/
theorem uprobes_static_fallback (env : Env) (pid : Int) (maps : List ProcMap)
    (lib : String) (pMap : List (String × FunctionPrograms))
    (s : IState) (t : TracerState)
    (h : env.libPath lib maps = none) :
    (env.openExecutableOk (InstrPath.exe pid) = true →
      uprobesLibs env pid maps [(lib, pMap)] s t
        = processFuncs env (InstrPath.exe pid) pMap s t) ∧
    (uprobesLibs env pid maps [(lib, pMap)] s t).2.1.instrumentedLibs
      = t.instrumentedLibs := by
  constructor
  · intro hopen
    rcases hpf : processFuncs env (InstrPath.exe pid) pMap s t with ⟨s1, t1, e1⟩
    cases e1 with
    | some err => simp [uprobesLibs, libTarget, h, hopen, hpf]
    | none => simp [uprobesLibs, libTarget, h, hopen, hpf]
  · rcases uprobesLibs_single_registry env pid maps lib pMap s t with hunch | hrec
    · exact hunch
    · obtain ⟨m, ino, s1, t1, h1, -⟩ := hrec
      rw [h] at h1
      cases h1

theorem uprobes_static_fallback_witness :
    uprobesLibs envAllOk 3 [⟨0, 1, "/x"⟩]
        [("libssl.so", [("SSL_read", ⟨true, some 1, none⟩)])] ⟨[], 0⟩ ⟨[], []⟩
      = processFuncs envAllOk (InstrPath.exe 3)
          [("SSL_read", ⟨true, some 1, none⟩)] ⟨[], 0⟩ ⟨[], []⟩ :=
  (uprobes_static_fallback envAllOk 3 [⟨0, 1, "/x"⟩] "libssl.so"
    [("SSL_read", ⟨true, some 1, none⟩)] ⟨[], 0⟩ ⟨[], []⟩ rfl).1 rfl

/-- C6: a library whose mapping's backing inode is already in the traced entity's
instrumented-library registry is skipped wholesale — state and sink unchanged, no error;
consequently, when a call with an unchanged process map succeeds, it leaves the inode
registered, and a second identical call attaches nothing and returns success with every
piece of state exactly as it was. -/
theorem uprobes_skip_and_idempotent (env : Env) (pid : Int) (maps : List ProcMap)
    (lib : String) (pMap : List (String × FunctionPrograms)) :
    (∀ (s : IState) (t : TracerState) (m : ProcMap) (ino : Nat),
      env.libPath lib maps = some m →
      env.statIno (InstrPath.mapFiles pid m.StartAddr m.EndAddr) = some ino →
      t.alreadyInstrumentedLib ino = true →
      uprobesLibs env pid maps [(lib, pMap)] s t = (s, t, none)) ∧
    (∀ (s s1 : IState) (t t1 : TracerState) (m : ProcMap) (ino : Nat),
      env.libPath lib maps = some m →
      env.statIno (InstrPath.mapFiles pid m.StartAddr m.EndAddr) = some ino →
      ino ≠ 0 →
      env.findLibMaps pid = Except.ok maps →
      maps ≠ [] →
      uprobes env pid [(lib, pMap)] s t = (s1, t1, none) →
      t1.alreadyInstrumentedLib ino = true ∧
      uprobes env pid [(lib, pMap)] s1 t1 = (s1, t1, none)) := by
  have hskip : ∀ (s : IState) (t : TracerState) (m : ProcMap) (ino : Nat),
      env.libPath lib maps = some m →
      env.statIno (InstrPath.mapFiles pid m.StartAddr m.EndAddr) = some ino →
      t.alreadyInstrumentedLib ino = true →
      uprobesLibs env pid maps [(lib, pMap)] s t = (s, t, none) := by
    intro s t m ino hm hsi halready
    simp [uprobesLibs, libTarget, hm, hsi, halready]
  refine ⟨hskip, ?_⟩
  intro s s1 t t1 m ino hm hsi hino hread hmaps hrun
  have hlen : ¬maps.length = 0 := by
    simpa [List.length_eq_zero] using hmaps
  have hrun' : uprobesLibs env pid maps [(lib, pMap)] s t = (s1, t1, none) := by
    simp only [uprobes, processMaps, hread] at hrun
    rwa [if_neg hlen] at hrun
  have hA : t1.alreadyInstrumentedLib ino = true := by
    by_cases halready : t.alreadyInstrumentedLib ino = true
    · have heq := (hskip s t m ino hm hsi halready).symm.trans hrun'
      have ht : t = t1 := congrArg (fun x => x.2.1) heq
      rw [← ht]
      exact halready
    · have halready' : t.alreadyInstrumentedLib ino = false := by simpa using halready
      by_cases hopen :
          env.openExecutableOk (InstrPath.mapFiles pid m.StartAddr m.EndAddr) = true
      · rcases hpf : processFuncs env (InstrPath.mapFiles pid m.StartAddr m.EndAddr)
            pMap s t with ⟨s2, t2, e2⟩
        cases e2 with
        | some err =>
          have hcontra : uprobesLibs env pid maps [(lib, pMap)] s t
              = (s2, t2, some err) := by
            simp [uprobesLibs, libTarget, hm, hsi, halready', hopen, hpf]
          rw [hcontra] at hrun'
          have := congrArg (fun x => x.2.2) hrun'
          simp at this
        | none =>
          have hres : uprobesLibs env pid maps [(lib, pMap)] s t
              = (s2, t2.recordInstrumentedLib ino, none) := by
            simp [uprobesLibs, libTarget, hm, hsi, halready', hopen, hpf, hino]
          rw [hres] at hrun'
          have ht : t2.recordInstrumentedLib ino = t1 :=
            congrArg (fun x => x.2.1) hrun'
          rw [← ht]
          simp [TracerState.alreadyInstrumentedLib, TracerState.recordInstrumentedLib]
      · have hcontra : uprobesLibs env pid maps [(lib, pMap)] s t
            = (s, t, some "open executable") := by
          simp [uprobesLibs, libTarget, hm, hsi, halready', eq_false_of_ne_true hopen]
        rw [hcontra] at hrun'
        have := congrArg (fun x => x.2.2) hrun'
        simp at this
  refine ⟨hA, ?_⟩
  simp only [uprobes, processMaps, hread]
  rw [if_neg hlen]
  exact hskip s1 t1 m ino hm hsi hA

/-- The process map of the inode-skip scenario: `/lib/libssl.so` mapped at
[0x1000, 0x2000), backing inode 1234. -/
def mapsSSL : List ProcMap := [⟨4096, 8192, "/lib/libssl.so"⟩]

/-- Oracle environment of the inode-skip scenario: process 3 maps `libssl.so` at inode
1234 and every attachment primitive succeeds. -/
def envLib : Env :=
  { envAllOk with
    libPath := fun lib maps =>
      if lib == "libssl.so" && maps == mapsSSL then
        some ⟨4096, 8192, "/lib/libssl.so"⟩
      else none
    statIno := fun p =>
      if p == InstrPath.mapFiles 3 4096 8192 then some 1234 else none
    findLibMaps := fun pid => if pid == 3 then Except.ok mapsSSL else Except.ok [] }

theorem uprobes_skip_and_idempotent_witness :
    TracerState.alreadyInstrumentedLib ⟨[0, 0, 1], [1234]⟩ 1234 = true ∧
    uprobes envLib 3 [("libssl.so", [("SSL_read", ⟨true, some 1, none⟩),
        ("SSL_write", ⟨true, some 2, none⟩)])] ⟨[0, 1], 2⟩ ⟨[0, 0, 1], [1234]⟩
      = (⟨[0, 1], 2⟩, ⟨[0, 0, 1], [1234]⟩, none) :=
  (uprobes_skip_and_idempotent envLib 3 mapsSSL "libssl.so"
      [("SSL_read", ⟨true, some 1, none⟩), ("SSL_write", ⟨true, some 2, none⟩)]).2
    ⟨[], 0⟩ ⟨[0, 1], 2⟩ ⟨[], []⟩ ⟨[0, 0, 1], [1234]⟩ ⟨4096, 8192, "/lib/libssl.so"⟩
    1234 (by decide) (by decide) (by decide) rfl (by decide) (by decide)

theorem attachRets_allok (env : Env) (pr : Nat)
    (hok : ∀ p a, env.goUprobeOk p a = true) :
    ∀ (rets : List Nat) (s : IState), (attachRets env pr s rets).2 = none := by
  intro rets
  induction rets with
  | nil => intro s; simp [attachRets]
  | cons r rest ih => intro s; simpa [attachRets, hok pr r] using ih s.push

theorem goprobe_allok (env : Env) (probe : Probe) (s : IState)
    (hok : ∀ p a, env.goUprobeOk p a = true) :
    (goprobe env probe s).2 = none := by
  cases hs : probe.Programs.Start with
  | none =>
    cases he : probe.Programs.End with
    | none => simp [goprobe, hs, he]
    | some pr =>
      simpa [goprobe, hs, he] using attachRets_allok env pr hok probe.Offsets.Returns s
  | some pr =>
    cases he : probe.Programs.End with
    | none => simp [goprobe, hs, he, hok pr probe.Offsets.Start]
    | some pr2 =>
      simpa [goprobe, hs, he, hok pr probe.Offsets.Start] using
        attachRets_allok env pr2 hok probe.Offsets.Returns s.push

/-- C10: the instrumenter's closables list is never cleared (it only ever grows by
appending) and each per-function `AddCloser` hands the ENTIRE accumulated list to the
traced entity; hence in a `goprobes` run in which every catalog function is present in
the offset resolver and every attachment succeeds, a handle already in the closables
list at entry — one created for an earlier function, whether by a previous
`kprobes`/`goprobes`/`uprobes` call sharing this instrumenter or earlier in this call —
is delivered to the closer sink once more for every successful function: its occurrence
count in the sink grows by the catalog length times its count in the list, so with two
or more successful functions the sink receives duplicate copies of the same handle. -/
theorem goprobes_sink_duplicates (env : Env) (offsets : Offsets) :
    ∀ (cat : List (String × FunctionPrograms)) (s : IState) (t : TracerState)
      (h : Nat),
    (∀ p a, env.goUprobeOk p a = true) →
    (∀ e ∈ cat, (lookupFunc offsets.Funcs e.1).isSome = true) →
    (∀ x, x ∈ s.closables → x < s.nextId) →
    h ∈ s.closables →
    ∃ s' t', goprobes env offsets cat s t = (s', t', none) ∧
      (∃ u, s'.closables = s.closables ++ u) ∧
      s'.closables.count h = s.closables.count h ∧
      t'.sink.count h = t.sink.count h + cat.length * s.closables.count h := by
  intro cat
  induction cat with
  | nil =>
    intro s t h _ _ _ _
    exact ⟨s, t, rfl, ⟨[], by simp⟩, rfl, by simp⟩
  | cons entry rest ih =>
    rcases entry with ⟨fn, progs⟩
    intro s t h hok hfound hwf hh
    have hfn : (lookupFunc offsets.Funcs fn).isSome = true :=
      hfound (fn, progs) (List.mem_cons_self ..)
    rcases hlk : lookupFunc offsets.Funcs fn with _ | offs
    · rw [hlk] at hfn
      cases hfn
    · rcases hgp : goprobe env ⟨offs, progs⟩ s with ⟨s1, e1⟩
      have he1 : e1 = none := by
        have := goprobe_allok env ⟨offs, progs⟩ s hok
        rw [hgp] at this
        exact this
      subst he1
      have hext : Extends s s1 := by
        have := goprobe_extends env ⟨offs, progs⟩ s
        rwa [hgp] at this
      obtain ⟨k, hc, hn⟩ := hext
      have hcount1 : s1.closables.count h = s.closables.count h := by
        rw [hc, List.count_append]
        have hzero : (List.range' s.nextId k).count h = 0 := by
          apply List.count_eq_zero_of_not_mem
          intro hmem
          have h1 := List.mem_range'_1.mp hmem
          have h2 := hwf h hh
          omega
        omega
      have hwf1 : ∀ x, x ∈ s1.closables → x < s1.nextId := by
        intro x hx
        rw [hc] at hx
        rcases List.mem_append.mp hx with hx | hx
        · have := hwf x hx; omega
        · have := List.mem_range'_1.mp hx; omega
      have hh1 : h ∈ s1.closables := by
        rw [hc]
        exact List.mem_append.mpr (Or.inl hh)
      obtain ⟨s', t', hrun, ⟨u, hu⟩, hcnt, hsink⟩ :=
        ih s1 (t.addCloser s1.closables) h hok
          (fun e he => hfound e (List.mem_cons_of_mem _ he)) hwf1 hh1
      refine ⟨s', t', ?_, ?_, ?_, ?_⟩
      · simp only [goprobes, hlk, hgp]
        exact hrun
      · exact ⟨List.range' s.nextId k ++ u, by rw [hu, hc, List.append_assoc]⟩
      · rw [hcnt, hcount1]
      · rw [hsink]
        simp only [TracerState.addCloser, List.count_append]
        rw [hcount1]
        simp only [List.length_cons]
        ring

theorem goprobes_sink_duplicates_witness :
    ∃ s' t', goprobes envAllOk ⟨[("f1", ⟨0, []⟩), ("f2", ⟨0, []⟩)]⟩
        [("f1", ⟨false, some 1, none⟩), ("f2", ⟨false, some 2, none⟩)]
        ⟨[0], 1⟩ ⟨[0], []⟩ = (s', t', none) ∧
      (∃ u, s'.closables = IState.closables ⟨[0], 1⟩ ++ u) ∧
      s'.closables.count 0 = (IState.closables ⟨[0], 1⟩).count 0 ∧
      t'.sink.count 0 = (TracerState.sink ⟨[0], []⟩).count 0 +
        ([("f1", (⟨false, some 1, none⟩ : FunctionPrograms)),
          ("f2", ⟨false, some 2, none⟩)]).length *
          (IState.closables ⟨[0], 1⟩).count 0 :=
  goprobes_sink_duplicates envAllOk ⟨[("f1", ⟨0, []⟩), ("f2", ⟨0, []⟩)]⟩
    [("f1", ⟨false, some 1, none⟩), ("f2", ⟨false, some 2, none⟩)]
    ⟨[0], 1⟩ ⟨[0], []⟩ 0
    (fun _ _ => rfl)
    (by
      intro e he
      simp only [List.mem_cons, List.not_mem_nil, or_false] at he
      rcases he with rfl | rfl <;> decide)
    (by
      intro x hx
      have hx' : x ∈ [0] := hx
      have hx0 : x = 0 := by simpa using hx'
      subst hx0
      decide)
    (by decide)
